import Mathlib

/-!
Verification of the rclib request-execution core (hypernetix/rclib,
src/rclib/src/lib.rs) against its natural-language specification.

The Rust code is shallowly embedded: pure functions become Lean functions,
the HTTP transport and the filesystem become explicit oracles passed as
arguments, the fresh UUID drawn by one call of Uuid::new_v4 becomes a
string argument of the function that draws it, and the worker-pool of
execute_requests_loop becomes a small-step transition relation on an
explicit state.  Machine integers of the source (u32, u64) stay Nat here:
no arithmetic in the modelled fragment can overflow and none of the claims
concern wrap-around.
-/

namespace Rclib

/-! ## Strings and variable maps

Rust `HashMap<String, String>` variable maps are embedded as association
lists with first-match lookup and replace-on-insert, mirroring the map
abstraction (one value per key).  Rust `str::starts_with`,
`str::ends_with` and `str::trim_end_matches('/')` are embedded over
character lists. -/

/-- Variable bindings: model of `HashMap<String, String>`. -/
abbrev Vars := List (String × String)

/-- First-match lookup, model of `HashMap::get`. -/
def varsGet (vars : Vars) (key : String) : Option String :=
  match vars with
  | [] => none
  | (k, v) :: rest => if k = key then some v else varsGet rest key

/-- Replace-or-append insert, model of `HashMap::insert`. -/
def varsInsert (vars : Vars) (key val : String) : Vars :=
  match vars with
  | [] => [(key, val)]
  | (k, v) :: rest =>
      if k = key then (key, val) :: rest else (k, v) :: varsInsert rest key val

/-- Model of Rust `str::starts_with` for string patterns. -/
def strStartsWith (s pat : String) : Bool :=
  pat.data.isPrefixOf s.data

/-- Model of Rust `str::ends_with` for string patterns. -/
def strEndsWith (s pat : String) : Bool :=
  pat.data.reverse.isPrefixOf s.data.reverse

/-- Model of Rust `str::trim_end_matches('/')`: drop every trailing slash. -/
def trimEndSlashes (s : String) : String :=
  ⟨(s.data.reverse.dropWhile (fun c => c = '/')).reverse⟩

/-! ## build_url (src/rclib/src/lib.rs lines 950-964) -/

/-- Embedding of `build_url`: absolute endpoints pass through; a relative
endpoint needs a base URL; a separating slash is inserted only when the
base has no trailing slash and the endpoint no leading slash, otherwise
the base is stripped of all trailing slashes and concatenated directly. -/
def build_url (base_url : Option String) (endpoint : String) : Except String String :=
  if strStartsWith endpoint "http://" || strStartsWith endpoint "https://" then
    .ok endpoint
  else
    match base_url with
    | none => .error "Endpoint is relative but no --base-url provided"
    | some base =>
        let hasSlash := strEndsWith base "/" || strStartsWith endpoint "/"
        if hasSlash then .ok (trimEndSlashes base ++ endpoint)
        else .ok (base ++ "/" ++ endpoint)

/-! ## substitute_template (src/rclib/src/lib.rs lines 1318-1329)

The source replaces every non-overlapping, leftmost-first match of the
regex pattern placing an identifier of shape `[a-zA-Z_][a-zA-Z0-9_]*`
between braces by the bound value (empty when unbound).  The embedding
scans the character list directly; the scanner carries fuel (initially
the length of the input, which always suffices) so that it is
structurally recursive and kernel-computable. -/

/-- First character class of a placeholder identifier. -/
def isIdentStart (c : Char) : Bool := c.isAlpha || c = '_'

/-- Later character class of a placeholder identifier. -/
def isIdentChar (c : Char) : Bool := c.isAlpha || c.isDigit || c = '_'

/-- Valid placeholder identifier: nonempty, ident start then ident chars. -/
def validIdent (s : String) : Bool :=
  match s.data with
  | [] => false
  | c :: cs => isIdentStart c && cs.all isIdentChar

/-- Match a placeholder right after an opening brace: an identifier
followed by a closing brace.  Returns the identifier and the characters
after the closing brace, or none when the text at this position is not a
placeholder (the regex engine then retries from the next position). -/
def matchPlaceholder : List Char → Option (String × List Char)
  | [] => none
  | c :: cs =>
      if isIdentStart c then
        match cs.dropWhile isIdentChar with
        | [] => none
        | b :: tail =>
            if b = '}' then some (⟨c :: cs.takeWhile isIdentChar⟩, tail)
            else none
      else none

/-- Fueled scanner for `substitute_template`: leftmost matches of the
placeholder pattern are replaced, the replacement text is never rescanned,
and unmatched text (including malformed placeholders) passes through. -/
def substChars (vars : Vars) : Nat → List Char → List Char
  | 0, _ => []
  | _, [] => []
  | fuel + 1, c :: rest =>
      if c = '{' then
        match matchPlaceholder rest with
        | some (name, tail) =>
            ((varsGet vars name).getD "").data ++ substChars vars fuel tail
        | none => c :: substChars vars fuel rest
      else c :: substChars vars fuel rest

/-- Embedding of `substitute_template`. -/
def substitute_template (template : String) (vars : Vars) : String :=
  ⟨substChars vars template.data.length template.data⟩

/-! ## JSON values

Model of `serde_json::Value`.  Numbers are embedded as integers: the
modelled code paths compare, extract and print numbers without arithmetic,
and none of the claims involves fractional values (`as_f64` is used by the
source only to display a progress percentage, a side effect outside the
embedding). -/

/-- Model of `serde_json::Value`. -/
inductive Json where
  | null
  | bool (b : Bool)
  | num (n : Int)
  | str (s : String)
  | arr (elems : List Json)
  | obj (fields : List (String × Json))

/-- First-match field lookup in an object field list. -/
def fieldGet (fields : List (String × Json)) (key : String) : Option Json :=
  match fields with
  | [] => none
  | (k, v) :: rest => if k = key then some v else fieldGet rest key

/-- Model of `serde_json::Value::get` with a string key: field lookup on
objects, none on everything else. -/
def Json.get (j : Json) (key : String) : Option Json :=
  match j with
  | .obj fields => fieldGet fields key
  | _ => none

/-- Model of `serde_json::Value::as_str`. -/
def Json.asStr (j : Json) : Option String :=
  match j with
  | .str s => some s
  | _ => none

mutual

/-- Model of `serde_json::Value::to_string` (string escaping omitted; no
claim exercises it). -/
def renderJson : Json → String
  | .null => "null"
  | .bool b => cond b "true" "false"
  | .num n => toString n
  | .str s => "\"" ++ s ++ "\""
  | .arr es => "[" ++ renderJsonList es ++ "]"
  | .obj fs => "\x7b" ++ renderJsonFields fs ++ "\x7d"

/-- Comma-separated rendering of array elements. -/
def renderJsonList : List Json → String
  | [] => ""
  | [j] => renderJson j
  | j :: rest => renderJson j ++ "," ++ renderJsonList rest

/-- Comma-separated rendering of object fields. -/
def renderJsonFields : List (String × Json) → String
  | [] => ""
  | [(k, j)] => "\"" ++ k ++ "\":" ++ renderJson j
  | (k, j) :: rest => "\"" ++ k ++ "\":" ++ renderJson j ++ "," ++ renderJsonFields rest

end

/-! ## JSONPath extraction (src/rclib/src/lib.rs lines 929-944)

The source delegates to the external crate `jsonpath_lib::select`.  The
embedding models the fragment of JSONPath the repository's scenarios use:
plain dot paths `$.field.field`, navigating object fields from the root.
An expression outside this fragment selects nothing, which
`extract_jsonpath_value` turns into `none` exactly as a select error or
an empty result list does in the source. -/

/-- Split a character list on dots. -/
def splitDot : List Char → List (List Char)
  | [] => [[]]
  | c :: rest =>
      if c = '.' then [] :: splitDot rest
      else
        match splitDot rest with
        | [] => [[c]]
        | seg :: segs => (c :: seg) :: segs

/-- Navigate a chain of object fields. -/
def jsonNavigate : List String → Json → Option Json
  | [], j => some j
  | seg :: rest, j =>
      match j.get seg with
      | some v => jsonNavigate rest v
      | none => none

/-- Model of `jsonpath_lib::select` restricted to dot paths: the first (and
only) selected value, none when the path misses or is not a dot path. -/
def jsonpathSelect (j : Json) (path : String) : Option Json :=
  match (splitDot path.data).map (fun cs => (⟨cs⟩ : String)) with
  | root :: segs => if root = "$" then jsonNavigate segs j else none
  | [] => none

/-- Embedding of `extract_jsonpath_value`: first selected value, rendered
as a bare string for scalars and as JSON text otherwise. -/
def extract_jsonpath_value (j : Json) (path : String) : Option String :=
  match jsonpathSelect j path with
  | none => none
  | some v =>
      match v with
      | .str s => some s
      | .num n => some (toString n)
      | .bool b => some (cond b "true" "false")
      | other => some (renderJson other)

/-! ## Scenario data model (src/rclib/src/mapping.rs lines 125-161)

`extract_response` is a `HashMap` in the source; it is embedded as an
association list in iteration order (the scenario semantics does not
depend on the order: extraction fails exactly when some rule fails). -/

/-- Model of `mapping::CompletionCondition`. -/
structure CompletionCondition where
  status : String
  action : String
  error_field : Option String
  error_message : Option String

/-- Model of `mapping::PollingConfig`. -/
structure PollingConfig where
  interval_seconds : Nat
  timeout_seconds : Nat
  completion_conditions : List CompletionCondition

/-- Model of `mapping::ScenarioStep`. -/
structure ScenarioStep where
  name : String
  method : String
  endpoint : String
  body : Option String
  headers : List (String × String)
  extract_response : List (String × String)
  polling : Option PollingConfig

/-- Model of `mapping::Scenario`. -/
structure Scenario where
  scenario_type : String
  steps : List ScenarioStep

/-- Model of `ScenarioSpec` (src/rclib/src/lib.rs lines 56-61). -/
structure ScenarioSpec where
  base_url : Option String
  scenario : Scenario
  vars : Vars

/-- Model of `RawRequestSpec` (src/rclib/src/lib.rs lines 34-44). -/
structure RawRequestSpec where
  base_url : Option String
  method : String
  endpoint : String
  headers : List String
  body : Option String
  multipart : Bool
  file_fields : List (String × String)
  table_view : Option (List String)

/-- Embedding of `build_raw_spec_from_step` (lines 831-858): substitute the
step's endpoint, body and header templates from the current varMap.
The source wraps the result in `Ok` but has no failing path. -/
def build_raw_spec_from_step (base_url : Option String) (step : ScenarioStep)
    (varMap : Vars) : RawRequestSpec where
  base_url := base_url
  method := step.method
  endpoint := substitute_template step.endpoint varMap
  headers := step.headers.map
    (fun kv => kv.1 ++ ": " ++ substitute_template kv.2 varMap)
  body := step.body.map (fun b => substitute_template b varMap)
  multipart := false
  file_fields := []
  table_view := none

/-! ## Response oracle

HTTP traffic is replaced by an oracle.  `execute_single_request` (lines
860-899) returns the response body text on a 2xx status and an error on a
transport failure or non-2xx status; a body is embedded already split by
whether `serde_json` can parse it. -/

/-- Response body: JSON-parseable (with its parse) or not. -/
inductive RespBody where
  | jsonBody (j : Json)
  | textBody (s : String)

/-- Model of `serde_json::from_str` on a response body. -/
def parseJson : RespBody → Option Json
  | .jsonBody j => some j
  | .textBody _ => none

/-- Environment of one scenario run: the outcome of the schedule request,
the outcomes of successive poll requests, and the elapsed seconds read
from the wall clock before poll iteration `k`.  The clock is abstract:
the source compares `Instant::elapsed` against the polling timeout. -/
structure ScenarioEnv where
  schedule : Except String RespBody
  polls : List (Except String RespBody)
  clock : Nat → Nat

/-! ## Variable extraction (src/rclib/src/lib.rs lines 901-927) -/

/-- Rule-by-rule extraction: each rule stores its first match, a rule that
selects nothing fails the whole extraction. -/
def extractLoop (j : Json) : List (String × String) → Vars → Except String Vars
  | [], vars => .ok vars
  | (varName, pathExpr) :: rest, vars =>
      match extract_jsonpath_value j pathExpr with
      | some v => extractLoop j rest (varsInsert vars varName v)
      | none =>
          .error ("Failed to extract variable " ++ varName ++ " using JSONPath "
            ++ pathExpr)

/-- Embedding of `extract_response_variables`: nothing to extract returns
at once (the body is then never parsed); otherwise the body must parse as
JSON and every rule must select a value. -/
def extract_response_variables (body : RespBody)
    (extractions : List (String × String)) (vars : Vars) : Except String Vars :=
  if extractions.isEmpty then .ok vars
  else
    match parseJson body with
    | none => .error "Failed to parse response as JSON for variable extraction"
    | some j => extractLoop j extractions vars

/-! ## Polling loop (src/rclib/src/lib.rs lines 749-829) -/

/-- Terminal decision of a matched completion condition.  `success` prints
the final body and returns exit code 0; `failure` prints the message and
returns exit code 1; `configError` aborts with an error. -/
inductive PollDecision where
  | success
  | failure (errorMsg : String)
  | configError (msg : String)

/-- Decision taken when a condition's `status` equals the response status
(lines 781-810): the action picks success, error (message from
`error_field` extraction with fallback text, else `error_message`, else a
generic message) or a configuration error. -/
def conditionDecision (j : Json) (c : CompletionCondition) : PollDecision :=
  if c.action = "success" then .success
  else if c.action = "error" then
    .failure
      (match c.error_field with
       | some ef => (extract_jsonpath_value j ef).getD "Unknown error"
       | none =>
           match c.error_message with
           | some m => m
           | none => "Operation failed")
  else .configError ("Unknown completion action: " ++ c.action)

/-- One condition against one response (lines 777-780): the response's
top-level `status` field must exist, be a JSON string and equal the
condition's `status`. -/
def evalCondition (j : Json) (c : CompletionCondition) : Option PollDecision :=
  match j.get "status" with
  | some statusValue =>
      match statusValue.asStr with
      | some statusStr =>
          if statusStr = c.status then some (conditionDecision j c) else none
      | none => none
  | none => none

/-- Conditions in declared order; the first whose status matches decides. -/
def checkCompletionConditions (conds : List CompletionCondition) (j : Json) :
    Option PollDecision :=
  match conds with
  | [] => none
  | c :: rest =>
      match evalCondition j c with
      | some d => some d
      | none => checkCompletionConditions rest j

/-- Outcome of a scenario run.  `succeeded`/`failed` are `Ok(0)`/`Ok(1)`
with the emitted final body or error message; `bailed` is an `anyhow`
error; `starved` is a model artifact marking that the oracle ran out of
poll responses before the source loop would have terminated. -/
inductive LoopRes where
  | succeeded (finalBody : RespBody)
  | failed (errorMsg : String)
  | bailed (msg : String)
  | starved

/-- Result of the polling loop together with the poll request descriptors
it issued, in order (the source rebuilds the descriptor from the current
varMap on every iteration and sends it). -/
structure PollRun where
  res : LoopRes
  issued : List RawRequestSpec

/-- Embedding of the poll loop (lines 749-829).  Iteration `k` first
compares the clock against the timeout, then issues the rebuilt poll
request, parses the response body, and evaluates the completion
conditions; when none matches it sleeps and repeats (the sleep is a pure
delay, invisible here beyond the clock). -/
def pollLoop (base_url : Option String) (step : ScenarioStep) (vars : Vars)
    (cfg : PollingConfig) (clock : Nat → Nat) (k : Nat)
    (rs : List (Except String RespBody)) : PollRun :=
  if clock k > cfg.timeout_seconds then
    ⟨.bailed ("Polling timeout after " ++ toString cfg.timeout_seconds
      ++ " seconds"), []⟩
  else
    match rs with
    | [] => ⟨.starved, []⟩
    | r :: rest =>
      let spec := build_raw_spec_from_step base_url step vars
      match r with
      | .error e => ⟨.bailed e, [spec]⟩
      | .ok body =>
        match parseJson body with
        | none => ⟨.bailed "Failed to parse polling response as JSON", [spec]⟩
        | some j =>
          match checkCompletionConditions cfg.completion_conditions j with
          | some .success => ⟨.succeeded body, [spec]⟩
          | some (.failure m) => ⟨.failed m, [spec]⟩
          | some (.configError m) => ⟨.bailed m, [spec]⟩
          | none =>
            let tailRun := pollLoop base_url step vars cfg clock (k + 1) rest
            ⟨tailRun.res, spec :: tailRun.issued⟩

/-- Embedding of `execute_job_with_polling_scenario` (lines 682-829),
returning the outcome and the list of issued poll requests.  Step shape
and name checks, the schedule request, variable extraction and the
poll-step checks all happen before the first poll request.  The source's
quoted step names in error messages are kept without the quotes. -/
def execute_job_with_polling_scenario (s : ScenarioSpec) (env : ScenarioEnv) :
    PollRun :=
  match s.scenario.steps with
  | [schedule_step, poll_step] =>
    if schedule_step.name ≠ "schedule_job" then
      ⟨.bailed "First step must be named schedule_job", []⟩
    else
      match env.schedule with
      | .error e => ⟨.bailed e, []⟩
      | .ok body =>
        match extract_response_variables body schedule_step.extract_response
            s.vars with
        | .error e => ⟨.bailed e, []⟩
        | .ok varMap =>
          if poll_step.name ≠ "poll_job" then
            ⟨.bailed "Second step must be named poll_job", []⟩
          else
            match poll_step.polling with
            | none => ⟨.bailed "poll_job step must have polling configuration", []⟩
            | some cfg =>
                pollLoop s.base_url poll_step varMap cfg env.clock 0 env.polls
  | _ =>
    ⟨.bailed
      "job_with_polling scenario must have exactly 2 steps (schedule_job, poll_job)",
      []⟩

/-- Embedding of `execute_scenario` (lines 651-679): dispatch on the
scenario type. -/
def execute_scenario (s : ScenarioSpec) (env : ScenarioEnv) : PollRun :=
  if s.scenario.scenario_type = "job_with_polling" then
    execute_job_with_polling_scenario s env
  else ⟨.bailed ("Unsupported scenario type: " ++ s.scenario.scenario_type), []⟩

/-! ## Request descriptor assembler
(src/rclib/src/lib.rs lines 104-246, src/rclib/src/mapping.rs lines 55-102)

Only the fields that `apply_file_overrides` and
`build_request_from_command` read are embedded; the purely CLI-surface
fields of the source structs (help text, flag names, defaults,
conditional values, inheritance) are not consumed by the modelled
functions.  The filesystem is an oracle `String → Option String`
standing for `std::fs::read_to_string` (none = unreadable). -/

/-- Model of `mapping::ArgSpec` (the fields the assembler reads). -/
structure ArgSpec where
  name : Option String
  arg_type : Option String
  file_upload : Bool
  file_overrides_value_of : Option String
  endpoint : Option String
  method : Option String
  headers : Option (List (String × String))
  body : Option String

/-- Model of `mapping::CommandSpec` (the fields the assembler reads). -/
structure CommandSpec where
  method : Option String
  endpoint : Option String
  body : Option String
  headers : List (String × String)
  table_view : Option (List String)
  scenario : Option Scenario
  multipart : Bool
  custom_handler : Option String
  args : List ArgSpec

/-- Model of `RequestSpec` (src/rclib/src/lib.rs lines 46-54). -/
inductive RequestSpec where
  | simple (raw : RawRequestSpec)
  | scenario (s : ScenarioSpec)
  | customHandler (handler_name : String) (vars : Vars)

/-- Guard of one `apply_file_overrides` iteration (lines 108-114): the
argument is file-typed, declares a target variable, and its own bound
value is a nonempty path. -/
def fileOverrideApplies (arg : ArgSpec) (vars : Vars) : Bool :=
  (arg.arg_type == some "file") && arg.file_overrides_value_of.isSome &&
    (match arg.name with
     | some n =>
         (match varsGet vars n with
          | some p => p != ""
          | none => false)
     | none => false)

/-- Embedding of `apply_file_overrides` (lines 104-126): walk the
arguments in order; for each argument passing the guard, read the bound
path and store the content under the target variable; an unreadable file
is skipped.  The catch-all branches mirror the source's unwraps, which
the guard makes unreachable. -/
def apply_file_overrides (fs : String → Option String) :
    List ArgSpec → Vars → Vars
  | [], vars => vars
  | arg :: rest, vars =>
      if fileOverrideApplies arg vars then
        match arg.file_overrides_value_of, arg.name with
        | some target, some n =>
            (match varsGet vars n with
             | some path =>
                 (match fs path with
                  | some content =>
                      apply_file_overrides fs rest (varsInsert vars target content)
                  | none => apply_file_overrides fs rest vars)
             | none => apply_file_overrides fs rest vars)
        | _, _ => apply_file_overrides fs rest vars
      else apply_file_overrides fs rest vars

/-- Mutable command-level request parts of `build_request_from_command`
(method, endpoint, body and the header map before rendering). -/
structure CmdParts where
  method : String
  endpoint : String
  body : Option String
  headersMap : List (String × String)

/-- Per-argument override pass (lines 194-215): for every argument in
declaration order whose name is in the selected set, its endpoint,
method, headers and body — when present — replace or extend the current
parts, with templates substituted from the current variables. -/
def applyArgOverrides (v : Vars) (selected : List String) :
    List ArgSpec → CmdParts → CmdParts
  | [], parts => parts
  | a :: rest, parts =>
      let parts1 :=
        match a.name with
        | some argName =>
            if selected.contains argName then
              let p1 := match a.endpoint with
                | some ep => { parts with endpoint := substitute_template ep v }
                | none => parts
              let p2 := match a.method with
                | some m => { p1 with method := m }
                | none => p1
              let p3 := match a.headers with
                | some hdrs =>
                    let hm := hdrs.foldl
                      (fun hm kv => varsInsert hm kv.1 (substitute_template kv.2 v))
                      p2.headersMap
                    { p2 with headersMap := hm }
                | none => p2
              match a.body with
              | some b => { p3 with body := some (substitute_template b v) }
              | none => p3
            else parts
        | none => parts
      applyArgOverrides v selected rest parts1

/-- Multipart file-field collection (lines 222-234): when the command is
multipart, every file-upload argument with a bound value contributes
its name and bound path. -/
def collectFileFields (cmd : CommandSpec) (v : Vars) : List (String × String) :=
  if cmd.multipart then
    cmd.args.filterMap (fun arg =>
      if arg.file_upload then
        match arg.name with
        | some n => (varsGet v n).map (fun p => (n, p))
        | none => none
      else none)
  else []

/-- Embedding of `build_request_from_command` (lines 129-246).  The fresh
UUID drawn by `Uuid::new_v4` is the argument `freshUuid` (drawn once per
call).  The two `expect` calls of the source — method and endpoint are
required for plain commands — are modelled by returning `none` (a panic);
every other path yields a spec. -/
def build_request_from_command (base_url : Option String) (cmd : CommandSpec)
    (vars : Vars) (selected_args : List String) (freshUuid : String)
    (fs : String → Option String) : Option RequestSpec :=
  match cmd.custom_handler with
  | some handler_name =>
      some (.customHandler handler_name
        (apply_file_overrides fs cmd.args (varsInsert vars "uuid" freshUuid)))
  | none =>
  match cmd.scenario with
  | some sc =>
      some (.scenario ⟨base_url, sc,
        apply_file_overrides fs cmd.args (varsInsert vars "uuid" freshUuid)⟩)
  | none =>
  match cmd.method, cmd.endpoint with
  | some method0, some endpoint_template =>
      let v := apply_file_overrides fs cmd.args (varsInsert vars "uuid" freshUuid)
      let parts0 : CmdParts :=
        { method := method0
          endpoint := substitute_template endpoint_template v
          body := cmd.body.map (fun t => substitute_template t v)
          headersMap := cmd.headers.map
            (fun kv => (kv.1, substitute_template kv.2 v)) }
      let parts := applyArgOverrides v selected_args cmd.args parts0
      some (.simple
        { base_url := base_url
          method := parts.method
          endpoint := parts.endpoint
          headers := parts.headersMap.map (fun kv => kv.1 ++ ": " ++ kv.2)
          body := parts.body
          multipart := cmd.multipart
          file_fields := collectFileFields cmd v
          table_view := cmd.table_view })
  | _, _ => none

/-! ## Execution dispatch and the load harness
(src/rclib/src/lib.rs lines 258-566)

The HTTP transport behind a simple request and behind a scenario run is
abstracted into runner oracles returning the process exit code or an
error, exactly the type `execute_request_spec` returns. -/

/-- Embedding of `execute_request_spec` (lines 258-291): dispatch on the
spec variant; a custom handler reaching the library is an error. -/
def execute_request_spec (simpleRunner : RawRequestSpec → Except String Int)
    (scenarioRunner : ScenarioSpec → Except String Int) (spec : RequestSpec) :
    Except String Int :=
  match spec with
  | .simple raw => simpleRunner raw
  | .scenario s => scenarioRunner s
  | .customHandler _ _ =>
      .error
        "Custom handlers should be handled by the calling application, not by the library"

/-- Model of `ExecutionResult` (lines 293-297); the elapsed duration is
dropped, only success matters to the claims. -/
structure ExecutionResult where
  is_success : Bool

/-- Embedding of `execute_worker_request` (lines 299-332): execute the
spec it was handed (the request index parameter is unused by the source)
and record success as exit code 0; an error is a failed attempt. -/
def execute_worker_request (runner : RequestSpec → Except String Int)
    (spec : RequestSpec) (_request_index : Nat) : ExecutionResult :=
  match runner spec with
  | .ok code => ⟨code == 0⟩
  | .error _ => ⟨false⟩

/-- Request spec a worker submits for attempt `i`: `execute_requests_loop`
clones the one spec it received before spawning workers, and every loop
iteration passes that same value to `execute_worker_request`; no
descriptor is rebuilt per attempt. -/
def attemptSpec (spec : RequestSpec) (_i : Nat) : RequestSpec := spec

/-- Built-in `uuid` binding carried by a spec (injected once by
`build_request_from_command`; a simple spec has no variable map left, the
binding is already substituted into its texts). -/
def uuidBinding : RequestSpec → Option String
  | .scenario s => varsGet s.vars "uuid"
  | .customHandler _ vs => varsGet vs "uuid"
  | .simple _ => none

/-- Load mode selected by `execute_requests_loop` (lines 347-365). -/
inductive LoadMode where
  | durationMode (secs : Nat)
  | countMode (target : Nat)
deriving DecidableEq

/-- Control decision of `execute_requests_loop` before any worker spawns
(lines 347-401): return after one synchronous execution; warn (about
duration or count) and execute once because the spec is a custom handler;
or start the worker pool with the selected mode and the normalized
concurrency. -/
inductive LoopAction where
  | singleRun
  | customOnce (durationWarning : Bool)
  | workerPool (mode : LoadMode) (concurrency : Nat)
deriving DecidableEq

/-- True on the custom-handler variant (the `matches!` test, line 371). -/
def isCustomHandler : RequestSpec → Bool
  | .customHandler _ _ => true
  | _ => false

/-- Embedding of the mode selection and dispatch prefix of
`execute_requests_loop` (lines 335-401): duration wins over count, a
count of at most one (or absent) returns after a single synchronous
execution before the custom-handler test, concurrency 0 becomes 1.
The normalized concurrency is computed here although the source computes
it after the early return; the early return does not read it. -/
def execute_requests_loop_plan (spec : RequestSpec) (count : Option Nat)
    (duration_secs : Nat) (concurrency : Nat) : LoopAction :=
  let conc := if concurrency = 0 then 1 else concurrency
  if duration_secs > 0 then
    if isCustomHandler spec then .customOnce true
    else .workerPool (.durationMode duration_secs) conc
  else
    match count with
    | some c =>
        if c > 1 then
          if isCustomHandler spec then .customOnce false
          else .workerPool (.countMode c) conc
        else .singleRun
    | none => .singleRun

/-! ## Count-mode worker pool as a transition system
(src/rclib/src/lib.rs lines 403-515)

In count mode every worker loops: read the shared atomic counter and stop
when it has reached the target (line 434); otherwise atomically
`fetch_add` it, obtaining attempt index old+1 (line 442); when that index
overshoots the target, stop without executing (line 445); otherwise
execute the spec and send one `ExecutionResult` into the channel (lines
455-465).  The read and the `fetch_add` are distinct atomic accesses, so
other workers interleave between them; each access itself is atomic.
The aggregator drains the channel until every worker's sender is dropped,
so every sent result is received: the `executed` list below is the
sequence of attempt indices whose results reach the aggregator (a send
fails only after the receiver is dropped, which happens only after the
drain loop ends).  Any interleaving of any number of workers is a path of
the `WorkerStep` relation. -/

/-- Phase of one worker thread: at the top of the loop (about to read the
counter), past the read check (about to `fetch_add`), holding a claimed
attempt index (about to execute and send), or terminated. -/
inductive WPhase where
  | idle
  | armed
  | claimed (idx : Nat)
  | done
deriving DecidableEq

/-- Shared state of the pool: the atomic counter, every worker's phase,
and the attempt indices aggregated so far. -/
structure LoopState where
  counter : Nat
  workers : List WPhase
  executed : List Nat
deriving DecidableEq

/-- Initial state: counter 0, `conc` workers at loop top, nothing done. -/
def initState (conc : Nat) : LoopState :=
  ⟨0, List.replicate conc .idle, []⟩

/-- One atomic step of some worker, count mode with target `target`.
The acting worker is singled out by splitting the worker list. -/
inductive WorkerStep (target : Nat) : LoopState → LoopState → Prop where
  | readStop (c : Nat) (l₁ l₂ : List WPhase) (ex : List Nat)
      (h : target ≤ c) :
      WorkerStep target ⟨c, l₁ ++ .idle :: l₂, ex⟩ ⟨c, l₁ ++ .done :: l₂, ex⟩
  | readGo (c : Nat) (l₁ l₂ : List WPhase) (ex : List Nat)
      (h : c < target) :
      WorkerStep target ⟨c, l₁ ++ .idle :: l₂, ex⟩ ⟨c, l₁ ++ .armed :: l₂, ex⟩
  | claimOver (c : Nat) (l₁ l₂ : List WPhase) (ex : List Nat)
      (h : target < c + 1) :
      WorkerStep target ⟨c, l₁ ++ .armed :: l₂, ex⟩
        ⟨c + 1, l₁ ++ .done :: l₂, ex⟩
  | claimGo (c : Nat) (l₁ l₂ : List WPhase) (ex : List Nat)
      (h : c + 1 ≤ target) :
      WorkerStep target ⟨c, l₁ ++ .armed :: l₂, ex⟩
        ⟨c + 1, l₁ ++ .claimed (c + 1) :: l₂, ex⟩
  | execSend (c : Nat) (l₁ l₂ : List WPhase) (ex : List Nat) (idx : Nat) :
      WorkerStep target ⟨c, l₁ ++ .claimed idx :: l₂, ex⟩
        ⟨c, l₁ ++ .idle :: l₂, ex ++ [idx]⟩

/-- Reachability: any finite interleaving of worker steps. -/
def WorkerSteps (target : Nat) : LoopState → LoopState → Prop :=
  Relation.ReflTransGen (WorkerStep target)

/-- The run has ended: every worker terminated its loop. -/
def allDone (s : LoopState) : Prop := ∀ w ∈ s.workers, w = WPhase.done

/-- Attempt indices currently claimed but not yet executed. -/
def claimedIdxs (ws : List WPhase) : List Nat :=
  ws.filterMap (fun w => match w with | .claimed k => some k | _ => none)

/-! ## Helper lemmas -/

/-- Looking up the key just inserted returns the inserted value. -/
theorem varsGet_varsInsert (vars : Vars) (k v : String) :
    varsGet (varsInsert vars k v) k = some v := by
  induction vars with
  | nil => simp [varsInsert, varsGet]
  | cons p rest ih =>
      obtain ⟨k', v'⟩ := p
      by_cases h : k' = k
      · simp [varsInsert, varsGet, h]
      · simp [varsInsert, varsGet, h, ih]

/-- Sample simple request descriptor used as a concrete input. -/
def sampleRaw : RawRequestSpec :=
  { base_url := some "http://h", method := "GET", endpoint := "/users"
    headers := [], body := none, multipart := false, file_fields := []
    table_view := none }

/-! ## Claim C9: build_url slash handling -/

/-- C9: for a relative endpoint, `build_url` strips all trailing slashes
off the base and concatenates directly whenever the base ends in a slash
or the endpoint starts with one, and inserts a separating slash only when
neither holds; in particular base http://h/ with endpoint users produces
http://husers with no separator. -/
theorem build_url_slash_semantics :
    (∀ base endpoint, strStartsWith endpoint "http://" = false →
       strStartsWith endpoint "https://" = false →
       build_url (some base) endpoint =
         .ok (if strEndsWith base "/" || strStartsWith endpoint "/" then
                trimEndSlashes base ++ endpoint
              else base ++ "/" ++ endpoint)) ∧
    build_url (some "http://h/") "users" = .ok "http://husers" ∧
    build_url (some "http://h") "users" = .ok "http://h/users" := by
  refine ⟨?_, rfl, rfl⟩
  intro base endpoint h1 h2
  simp only [build_url, h1, h2, Bool.or_self, Bool.false_eq_true, if_false]
  split <;> rfl

/-- Witness for C9 at a concrete base and endpoint. -/
theorem build_url_slash_semantics_witness :
    build_url (some "http://h/") "users" =
      .ok (if strEndsWith "http://h/" "/" || strStartsWith "users" "/" then
             trimEndSlashes "http://h/" ++ "users"
           else "http://h/" ++ "/" ++ "users") :=
  build_url_slash_semantics.1 "http://h/" "users" (by decide) (by decide)

/-! ## Claim C7: load-harness mode selection -/

/-- C7: a positive duration selects duration mode regardless of count; a
count above one (with zero duration) selects count mode; otherwise the
spec is executed exactly once synchronously; concurrency 0 is normalized
to 1, and a plan with concurrency 0 is the very plan with concurrency 1
(the worker pool depends on the configuration only through the plan). -/
theorem execute_requests_loop_mode_selection :
    (∀ spec count d conc, 0 < d → isCustomHandler spec = false →
       execute_requests_loop_plan spec count d conc =
         .workerPool (.durationMode d) (if conc = 0 then 1 else conc)) ∧
    (∀ spec c conc, 1 < c → isCustomHandler spec = false →
       execute_requests_loop_plan spec (some c) 0 conc =
         .workerPool (.countMode c) (if conc = 0 then 1 else conc)) ∧
    (∀ spec count conc, (∀ c, count = some c → c ≤ 1) →
       execute_requests_loop_plan spec count 0 conc = .singleRun) ∧
    (∀ spec count d, execute_requests_loop_plan spec count d 0 =
       execute_requests_loop_plan spec count d 1) := by
  refine ⟨?_, ?_, ?_, ?_⟩
  · intro spec count d conc hd hcustom
    simp [execute_requests_loop_plan, hd, hcustom]
  · intro spec c conc hc hcustom
    simp [execute_requests_loop_plan, hc, hcustom]
  · intro spec count conc hcount
    match count with
    | none => simp [execute_requests_loop_plan]
    | some c =>
        have := hcount c rfl
        simp [execute_requests_loop_plan, Nat.not_lt.mpr this]
  · intro spec count d
    simp [execute_requests_loop_plan]

/-- Witness for C7 at concrete configurations. -/
theorem execute_requests_loop_mode_selection_witness :
    execute_requests_loop_plan (.simple sampleRaw) (some 5) 7 0 =
        .workerPool (.durationMode 7) 1 ∧
      execute_requests_loop_plan (.simple sampleRaw) (some 5) 0 4 =
        .workerPool (.countMode 5) 4 ∧
      execute_requests_loop_plan (.simple sampleRaw) (some 1) 0 4 = .singleRun :=
  ⟨execute_requests_loop_mode_selection.1 (.simple sampleRaw) (some 5) 7 0
      (by decide) (by decide),
   execute_requests_loop_mode_selection.2.1 (.simple sampleRaw) 5 4
      (by decide) (by decide),
   execute_requests_loop_mode_selection.2.2.1 (.simple sampleRaw) (some 1) 4
      (fun c hc => by injection hc with h; omega)⟩

/-! ## Claim C5: custom handlers in the load harness -/

/-- Counterexample to C5: a custom-handler spec run with count 10 does
make the harness warn and call `execute_request_spec` once, but that
single call returns an error delegating the handler to the calling
application — the harness never executes the handler, so the run is not
one handler invocation. -/
theorem custom_handler_count_cex :
    execute_requests_loop_plan (.customHandler "export_users" []) (some 10) 0 1 =
        .customOnce false ∧
      execute_request_spec (fun _ => .ok 0) (fun _ => .ok 0)
          (.customHandler "export_users" []) =
        .error
          "Custom handlers should be handled by the calling application, not by the library" :=
  ⟨rfl, rfl⟩

/-- C5 amended: a custom-handler spec with a count above one (or a
positive duration) makes the harness emit a warning and call
`execute_request_spec` exactly once, never through the worker pool; that
call does not run the handler but returns an error delegating custom
handlers to the calling application.  With only concurrency set (count
absent, duration zero) the harness returns after the same single call
without any warning. -/
theorem custom_handler_never_parallel :
    (∀ h vs c conc, 1 < c →
       execute_requests_loop_plan (.customHandler h vs) (some c) 0 conc =
         .customOnce false) ∧
    (∀ h vs count d conc, 0 < d →
       execute_requests_loop_plan (.customHandler h vs) count d conc =
         .customOnce true) ∧
    (∀ h vs simpleRunner scenarioRunner,
       execute_request_spec simpleRunner scenarioRunner (.customHandler h vs) =
         .error
           "Custom handlers should be handled by the calling application, not by the library") ∧
    (∀ h vs conc,
       execute_requests_loop_plan (.customHandler h vs) none 0 conc =
         .singleRun) := by
  refine ⟨?_, ?_, ?_, ?_⟩
  · intro h vs c conc hc
    simp [execute_requests_loop_plan, hc, isCustomHandler]
  · intro h vs count d conc hd
    simp [execute_requests_loop_plan, hd, isCustomHandler]
  · intro h vs simpleRunner scenarioRunner
    rfl
  · intro h vs conc
    rfl

/-- Witness for C5 (amended) at a concrete handler spec and count. -/
theorem custom_handler_never_parallel_witness :
    execute_requests_loop_plan (.customHandler "export_users" []) (some 10) 0 4 =
      .customOnce false :=
  custom_handler_never_parallel.1 "export_users" [] 10 4 (by decide)

/-! ## Claim C3: descriptor reuse across load attempts -/

/-- Sample scenario command used as a concrete input: a command carrying
a scenario, no custom handler and no arguments. -/
def cmdScenarioEx : CommandSpec :=
  { method := none, endpoint := none, body := none, headers := []
    table_view := none, scenario := some ⟨"job_with_polling", []⟩
    multipart := false, custom_handler := none, args := [] }

/-- Counterexample to C3: building the descriptor once (the only build the
load loop performs) and submitting it for attempts 1 and 2 yields the
same `uuid` binding on both attempts — the built-in `uuid` does not
differ between attempts of one run. -/
theorem attempt_uuid_constant_cex :
    ((build_request_from_command none cmdScenarioEx [] []
        "11111111-2222-3333-4444-555555555555" (fun _ => none)).map
      (fun s => (uuidBinding (attemptSpec s 1), uuidBinding (attemptSpec s 2)))) =
      some (some "11111111-2222-3333-4444-555555555555",
            some "11111111-2222-3333-4444-555555555555") := rfl

/-- C3 amended: the request descriptor is built once, before the load
run; every attempt of the run submits that same descriptor (the worker's
request-index never reaches the build), so the built-in `uuid` binding —
injected a single time by `build_request_from_command` — is identical
across all attempts of the run. -/
theorem attempt_spec_reused (spec : RequestSpec) (i j : Nat)
    (cmd : CommandSpec) (base : Option String) (vars : Vars) (u : String)
    (fs : String → Option String) (sc : Scenario)
    (hch : cmd.custom_handler = none) (hsc : cmd.scenario = some sc)
    (hargs : cmd.args = []) :
    attemptSpec spec i = attemptSpec spec j ∧
      uuidBinding (attemptSpec spec i) = uuidBinding (attemptSpec spec j) ∧
      (build_request_from_command base cmd vars [] u fs).map uuidBinding =
        some (some u) := by
  refine ⟨rfl, rfl, ?_⟩
  simp [build_request_from_command, hch, hsc, hargs, uuidBinding,
    apply_file_overrides, varsGet_varsInsert]

/-- Witness for C3 (amended) at a concrete spec and attempts 1 and 2. -/
theorem attempt_spec_reused_witness :
    attemptSpec (.customHandler "h" []) 1 = attemptSpec (.customHandler "h" []) 2 ∧
      uuidBinding (attemptSpec (.customHandler "h" []) 1) =
        uuidBinding (attemptSpec (.customHandler "h" []) 2) ∧
      (build_request_from_command none cmdScenarioEx [] [] "u0"
          (fun _ => none)).map uuidBinding = some (some "u0") :=
  attempt_spec_reused (.customHandler "h" []) 1 2 cmdScenarioEx none [] "u0"
    (fun _ => none) ⟨"job_with_polling", []⟩ rfl rfl rfl

/-! ## Claim C4: the assembler's failure modes -/

/-- Sample command with neither a handler, nor a scenario, nor a method:
the source reaches `expect` and panics on it. -/
def cmdNoMethod : CommandSpec :=
  { method := none, endpoint := none, body := none, headers := []
    table_view := none, scenario := none, multipart := false
    custom_handler := none, args := [] }

/-- Counterexample to C4: a plain command without method and endpoint
makes `build_request_from_command` panic (the `expect` calls), modelled
by `none` — not every input yields a `RequestSpec`. -/
theorem build_request_panic_cex :
    build_request_from_command none cmdNoMethod [] [] "u" (fun _ => none) =
      none := rfl

/-- C4 amended: `build_request_from_command` raises no error and yields a
spec for every command that names a custom handler, carries a scenario,
or has both a method and an endpoint; a plain command missing either
panics.  File overrides degrade silently: when no bound path is readable,
the variable map is returned unchanged (no override applied). -/
theorem build_request_total_on_wellformed :
    (∀ base cmd vars selected u fs,
       cmd.custom_handler.isSome = true ∨ cmd.scenario.isSome = true ∨
         (cmd.method.isSome = true ∧ cmd.endpoint.isSome = true) →
       (build_request_from_command base cmd vars selected u fs).isSome = true) ∧
    (∀ fs args vars, (∀ p, fs p = none) →
       apply_file_overrides fs args vars = vars) := by
  constructor
  · intro base cmd vars selected u fs h
    unfold build_request_from_command
    rcases hch : cmd.custom_handler with _ | hname
    · rcases hsc : cmd.scenario with _ | sc
      · rcases hm : cmd.method with _ | m
        · simp [hch, hsc, hm] at h
        · rcases he : cmd.endpoint with _ | e
          · simp [hch, hsc, hm, he] at h
          · simp
      · simp
    · simp
  · intro fs args vars hfs
    induction args generalizing vars with
    | nil => rfl
    | cons arg rest ih =>
        unfold apply_file_overrides
        split
        · split
          · split
            · rw [hfs]
              exact ih _
            · exact ih _
          · exact ih _
        · exact ih _

/-- Witness for C4 (amended): a scenario command builds a spec, and a
filesystem where nothing is readable applies no override. -/
theorem build_request_total_on_wellformed_witness :
    (build_request_from_command none cmdScenarioEx [] [] "u"
        (fun _ => none)).isSome = true ∧
      apply_file_overrides (fun _ => none) [] [("a", "b")] = [("a", "b")] :=
  ⟨build_request_total_on_wellformed.1 none cmdScenarioEx [] [] "u"
      (fun _ => none) (Or.inr (Or.inl (by decide))),
   build_request_total_on_wellformed.2 (fun _ => none) [] [("a", "b")]
      (fun _ => rfl)⟩

/-! ## Claim C2: template substitution -/

/-- Dropping a prefix by a predicate never lengthens a list. -/
theorem dropWhile_length_le (p : Char → Bool) (l : List Char) :
    (l.dropWhile p).length ≤ l.length := by
  induction l with
  | nil => simp [List.dropWhile]
  | cons a l ih =>
      rw [List.dropWhile]
      split
      · simp only [List.length_cons]
        omega
      · simp

/-- A successful placeholder match consumes at least the identifier and
the closing brace, so the remainder is strictly shorter. -/
theorem matchPlaceholder_length {rest : List Char} {name : String}
    {tail : List Char} (h : matchPlaceholder rest = some (name, tail)) :
    tail.length < rest.length := by
  cases rest with
  | nil => simp [matchPlaceholder] at h
  | cons c cs =>
      simp only [matchPlaceholder] at h
      by_cases hs : isIdentStart c = true
      · rw [if_pos hs] at h
        have hd := dropWhile_length_le isIdentChar cs
        cases hdw : cs.dropWhile isIdentChar with
        | nil => rw [hdw] at h; simp at h
        | cons b bs =>
            rw [hdw] at h
            rw [hdw] at hd
            have h2 : (if b = '}' then
                some ((⟨c :: cs.takeWhile isIdentChar⟩ : String), bs)
              else none) = some (name, tail) := h
            by_cases hb : b = '}'
            · rw [if_pos hb] at h2
              have htail : tail = bs := by
                injection h2 with h1
                injection h1 with h3 h4
                exact h4.symm
              subst htail
              simp only [List.length_cons] at hd ⊢
              omega
            · rw [if_neg hb] at h2
              simp at h2
      · rw [if_neg hs] at h
        simp at h

/-- The scanner's result does not depend on the fuel once the fuel covers
the input length. -/
theorem substChars_fuelEq (vars : Vars) :
    ∀ (f₁ f₂ : Nat) (l : List Char), l.length ≤ f₁ → l.length ≤ f₂ →
      substChars vars f₁ l = substChars vars f₂ l := by
  intro f₁
  induction f₁ with
  | zero =>
      intro f₂ l h₁ h₂
      have hl : l = [] := List.eq_nil_of_length_eq_zero (Nat.le_zero.mp h₁)
      subst hl
      cases f₂ <;> rfl
  | succ f ih =>
      intro f₂ l h₁ h₂
      cases l with
      | nil => cases f₂ <;> rfl
      | cons c rest =>
          cases f₂ with
          | zero => simp at h₂
          | succ g =>
              simp only [List.length_cons, Nat.succ_le_succ_iff] at h₁ h₂
              by_cases hc : c = '{'
              · subst hc
                rw [substChars, substChars, if_pos rfl, if_pos rfl]
                cases hmp : matchPlaceholder rest with
                | none =>
                    exact congrArg _ (ih g rest h₁ h₂)
                | some nt =>
                    obtain ⟨name, tail⟩ := nt
                    have hlt := matchPlaceholder_length hmp
                    exact congrArg _ (ih g tail (by omega) (by omega))
              · rw [substChars, substChars, if_neg hc, if_neg hc]
                exact congrArg _ (ih g rest h₁ h₂)

/-- Taking while a predicate holds stops exactly at the first failing
element after a prefix of passing ones. -/
theorem takeWhile_append_stop (p : Char → Bool) (l₁ : List Char) (c : Char)
    (l₂ : List Char) (h₁ : ∀ x ∈ l₁, p x = true) (h₂ : p c = false) :
    (l₁ ++ c :: l₂).takeWhile p = l₁ := by
  induction l₁ with
  | nil => simp [List.takeWhile, h₂]
  | cons a t ih =>
      have ha : p a = true := h₁ a (by simp)
      simp only [List.cons_append, List.takeWhile, ha]
      exact congrArg _ (ih (fun x hx => h₁ x (by simp [hx])))

/-- Dropping while a predicate holds stops exactly at the first failing
element after a prefix of passing ones. -/
theorem dropWhile_append_stop (p : Char → Bool) (l₁ : List Char) (c : Char)
    (l₂ : List Char) (h₁ : ∀ x ∈ l₁, p x = true) (h₂ : p c = false) :
    (l₁ ++ c :: l₂).dropWhile p = c :: l₂ := by
  induction l₁ with
  | nil => simp [List.dropWhile, h₂]
  | cons a t ih =>
      have ha : p a = true := h₁ a (by simp)
      simp only [List.cons_append, List.dropWhile, ha]
      exact ih (fun x hx => h₁ x (by simp [hx]))

/-- A placeholder at the head of the scanned text matches, yielding the
identifier and the text after the closing brace. -/
theorem matchPlaceholder_exact (name rest : String)
    (h : validIdent name = true) :
    matchPlaceholder (name.data ++ '}' :: rest.data) = some (name, rest.data) := by
  unfold validIdent at h
  cases hD : name.data with
  | nil => rw [hD] at h; simp at h
  | cons c₀ cs₀ =>
      rw [hD] at h
      simp only [Bool.and_eq_true, List.all_eq_true] at h
      obtain ⟨hstart, hall⟩ := h
      rw [List.cons_append]
      simp only [matchPlaceholder]
      rw [if_pos hstart]
      rw [dropWhile_append_stop isIdentChar cs₀ '}' rest.data
            (fun x hx => hall x hx) (by decide)]
      show (if ('}' : Char) = '}' then
          some ((⟨c₀ :: (cs₀ ++ '}' :: rest.data).takeWhile isIdentChar⟩ : String),
            rest.data)
        else none) = some (name, rest.data)
      rw [if_pos rfl]
      rw [takeWhile_append_stop isIdentChar cs₀ '}' rest.data
            (fun x hx => hall x hx) (by decide)]
      have hmk : (⟨c₀ :: cs₀⟩ : String) = name := by rw [← hD]
      rw [hmk]

/-- A template beginning with a well-formed placeholder substitutes it
and continues with the remainder. -/
theorem substitute_template_placeholder_head (vars : Vars) (name rest : String)
    (h : validIdent name = true) :
    substitute_template ("\x7b" ++ name ++ "\x7d" ++ rest) vars =
      ((varsGet vars name).getD "") ++ substitute_template rest vars := by
  have hdata : ("\x7b" ++ name ++ "\x7d" ++ rest).data =
      '{' :: (name.data ++ '}' :: rest.data) := by
    simp [String.data_append]
  have hmp := matchPlaceholder_exact name rest h
  show (⟨substChars vars ("\x7b" ++ name ++ "\x7d" ++ rest).data.length
      ("\x7b" ++ name ++ "\x7d" ++ rest).data⟩ : String) = _
  rw [hdata]
  rw [List.length_cons]
  rw [substChars, if_pos rfl, hmp]
  have hfuel : substChars vars (name.data ++ '}' :: rest.data).length rest.data =
      substChars vars rest.data.length rest.data := by
    apply substChars_fuelEq
    · simp [List.length_append]
      omega
    · exact Nat.le_refl _
  show (⟨((varsGet vars name).getD "").data ++
      substChars vars (name.data ++ '}' :: rest.data).length rest.data⟩ : String) = _
  rw [hfuel]
  show (⟨((varsGet vars name).getD "").data ++ substChars vars rest.data.length rest.data⟩ : String) =
    ((varsGet vars name).getD "") ++ (⟨substChars vars rest.data.length rest.data⟩ : String)
  rfl

/-- A template beginning with any character other than an opening brace
keeps that character and continues with the remainder. -/
theorem substitute_template_literal_step (vars : Vars) (c : Char)
    (rest : List Char) (hc : ¬(c = '{')) :
    substitute_template ⟨c :: rest⟩ vars =
      (⟨[c]⟩ : String) ++ substitute_template ⟨rest⟩ vars := by
  show (⟨substChars vars (c :: rest).length (c :: rest)⟩ : String) = _
  rw [List.length_cons, substChars, if_neg hc]
  rfl

/-- A template beginning with an opening brace that does not open a
well-formed placeholder keeps the brace verbatim and rescans from the
next character, exactly as the regex engine advances by one position. -/
theorem substitute_template_brace_nomatch (vars : Vars) (rest : List Char)
    (hmp : matchPlaceholder rest = none) :
    substitute_template ⟨'{' :: rest⟩ vars =
      (⟨['{']⟩ : String) ++ substitute_template ⟨rest⟩ vars := by
  show (⟨substChars vars ('{' :: rest).length ('{' :: rest)⟩ : String) = _
  rw [List.length_cons, substChars, if_pos rfl, hmp]
  rfl

/-- Whenever the scanner accepts a placeholder, what it consumed really
was a well-formed placeholder: a valid identifier and its closing brace,
with the returned remainder being exactly the rest of the text. -/
theorem matchPlaceholder_some_shape {rest : List Char} {name : String}
    {tail : List Char} (h : matchPlaceholder rest = some (name, tail)) :
    validIdent name = true ∧ rest = name.data ++ '}' :: tail := by
  cases rest with
  | nil => simp [matchPlaceholder] at h
  | cons c cs =>
      simp only [matchPlaceholder] at h
      by_cases hs : isIdentStart c = true
      · rw [if_pos hs] at h
        cases hdw : cs.dropWhile isIdentChar with
        | nil => rw [hdw] at h; simp at h
        | cons b bs =>
            rw [hdw] at h
            have h2 : (if b = '}' then
                some ((⟨c :: cs.takeWhile isIdentChar⟩ : String), bs)
              else none) = some (name, tail) := h
            by_cases hb : b = '}'
            · rw [if_pos hb] at h2
              injection h2 with h3
              injection h3 with hname htail
              subst hb
              constructor
              · rw [← hname]
                show (match (c :: cs.takeWhile isIdentChar : List Char) with
                  | [] => false
                  | c2 :: cs2 => isIdentStart c2 && cs2.all isIdentChar) = true
                simp only [Bool.and_eq_true, List.all_eq_true]
                exact ⟨hs, fun x hx => List.mem_takeWhile_imp hx⟩
              · rw [← hname, ← htail]
                show c :: cs = (c :: cs.takeWhile isIdentChar) ++ '}' :: bs
                rw [List.cons_append]
                congr 1
                rw [← hdw]
                exact (List.takeWhile_append_dropWhile isIdentChar cs).symm
            · rw [if_neg hb] at h2
              simp at h2
      · rw [if_neg hs] at h
        simp at h

/-- C2: `substitute_template` replaces every occurrence of a well-formed
placeholder by its binding (empty when unbound) and leaves all other
text untouched.  The four structural equations cover every template —
empty; leading non-brace character kept verbatim; leading brace that
opens no placeholder kept verbatim with the scan resuming at the next
character; leading well-formed placeholder replaced with the scan
resuming after it — and the scanner accepts only well-formed
placeholders, so by induction on the template every occurrence anywhere
in the string is replaced and everything else is preserved; replacements
are never rescanned and the function is total by construction.  The
concrete conjuncts are the specification's examples plus a mixed
literal-and-placeholder template. -/
theorem substitute_template_spec :
    (∀ (vars : Vars) (name rest : String), validIdent name = true →
       substitute_template ("\x7b" ++ name ++ "\x7d" ++ rest) vars =
         ((varsGet vars name).getD "") ++ substitute_template rest vars) ∧
    (∀ (vars : Vars) (c : Char) (rest : List Char), ¬(c = '{') →
       substitute_template ⟨c :: rest⟩ vars =
         (⟨[c]⟩ : String) ++ substitute_template ⟨rest⟩ vars) ∧
    (∀ (vars : Vars) (rest : List Char), matchPlaceholder rest = none →
       substitute_template ⟨'{' :: rest⟩ vars =
         (⟨['{']⟩ : String) ++ substitute_template ⟨rest⟩ vars) ∧
    (∀ vars : Vars, substitute_template "" vars = "") ∧
    (∀ (rest : List Char) (name : String) (tail : List Char),
       matchPlaceholder rest = some (name, tail) →
       validIdent name = true ∧ rest = name.data ++ '}' :: tail) ∧
    substitute_template "Hello \x7bname\x7d!" [("name", "John")] = "Hello John!" ∧
    substitute_template "\x7ba\x7d\x7ba\x7d" [("a", "X")] = "XX" ∧
    substitute_template "\x7bmissing\x7d" [] = "" ∧
    substitute_template "\x7ba\x7d" [("a", "\x7bb\x7d"), ("b", "X")] = "\x7bb\x7d" ∧
    substitute_template "\x7b1a\x7d" [("1a", "X")] = "\x7b1a\x7d" ∧
    substitute_template "\x7ba" [("a", "X")] = "\x7ba" :=
  ⟨substitute_template_placeholder_head,
   substitute_template_literal_step,
   substitute_template_brace_nomatch,
   fun _ => rfl,
   fun _ _ _ h => matchPlaceholder_some_shape h,
   by decide, by decide, by decide, by decide, by decide, by decide⟩

/-- Witness for C2: the placeholder step, the literal-character step and
the unmatched-brace step, each at a concrete input. -/
theorem substitute_template_spec_witness :
    (substitute_template ("\x7b" ++ "a" ++ "\x7d" ++ "!") [("a", "X")] =
       ((varsGet [("a", "X")] "a").getD "") ++
         substitute_template "!" [("a", "X")]) ∧
    (substitute_template ⟨'H' :: "i".data⟩ [("a", "X")] =
       (⟨['H']⟩ : String) ++ substitute_template ⟨"i".data⟩ [("a", "X")]) ∧
    (substitute_template ⟨'{' :: "1a".data⟩ [("1a", "X")] =
       (⟨['{']⟩ : String) ++ substitute_template ⟨"1a".data⟩ [("1a", "X")]) :=
  ⟨substitute_template_spec.1 [("a", "X")] "a" "!" (by decide),
   substitute_template_spec.2.1 [("a", "X")] 'H' "i".data (by decide),
   substitute_template_spec.2.2.1 [("1a", "X")] "1a".data (by decide)⟩

/-! ## Claim C10: non-string status never matches -/

/-- Top-level `status` field of a poll response when it is a JSON string. -/
def statusStr (j : Json) : Option String := (j.get "status").bind Json.asStr

/-- A poll response that can never terminate the loop through a condition:
HTTP success, JSON body, and a `status` that is absent or not a string. -/
def nonMatchingResp (r : Except String RespBody) : Bool :=
  match r with
  | .ok (.jsonBody j) => (statusStr j).isNone
  | _ => false

/-- A condition cannot match a response without a string `status`. -/
theorem evalCondition_of_statusStr_none (j : Json) (c : CompletionCondition)
    (h : statusStr j = none) : evalCondition j c = none := by
  unfold statusStr at h
  unfold evalCondition
  cases hg : j.get "status" with
  | none => rfl
  | some sv =>
      rw [hg] at h
      have h2 : Json.asStr sv = none := h
      show (match sv.asStr with
        | some s => if s = c.status then some (conditionDecision j c) else none
        | none => none) = none
      rw [h2]

/-- No condition in the list matches without a string `status`. -/
theorem checkConds_of_statusStr_none (conds : List CompletionCondition)
    (j : Json) (h : statusStr j = none) :
    checkCompletionConditions conds j = none := by
  induction conds with
  | nil => rfl
  | cons c rest ih =>
      unfold checkCompletionConditions
      rw [evalCondition_of_statusStr_none j c h]
      exact ih

/-- C10: condition matching fires only on a string-valued top-level
`status`: when it is absent or a non-string JSON value no condition
matches, and a stream of such responses makes the loop poll, sleep and
repeat until the first clock reading past the timeout, at which point it
bails with the timeout error after exactly the polls whose clock reading
was still within the timeout. -/
theorem poll_requires_string_status :
    (∀ conds j, statusStr j = none → checkCompletionConditions conds j = none) ∧
    (∀ base step vars cfg clock n,
       ∀ (k : Nat) (rs : List (Except String RespBody)),
       (∀ r ∈ rs, nonMatchingResp r = true) → n ≤ rs.length →
       (∀ m, m < n → clock (k + m) ≤ cfg.timeout_seconds) →
       cfg.timeout_seconds < clock (k + n) →
       pollLoop base step vars cfg clock k rs =
         ⟨.bailed ("Polling timeout after " ++ toString cfg.timeout_seconds
             ++ " seconds"),
          List.replicate n (build_raw_spec_from_step base step vars)⟩) := by
  refine ⟨checkConds_of_statusStr_none, ?_⟩
  intro base step vars cfg clock n
  induction n with
  | zero =>
      intro k rs hnm hlen hwithin hover
      rw [Nat.add_zero] at hover
      rw [pollLoop.eq_def, if_pos (by omega)]
      rfl
  | succ n ih =>
      intro k rs hnm hlen hwithin hover
      have h0 : clock k ≤ cfg.timeout_seconds := by
        have := hwithin 0 (Nat.succ_pos n)
        rwa [Nat.add_zero] at this
      cases rs with
      | nil => simp at hlen
      | cons r rest =>
          have hr : nonMatchingResp r = true := hnm r (by simp)
          obtain ⟨j, hj, hns⟩ : ∃ j, r = .ok (.jsonBody j) ∧ statusStr j = none := by
            unfold nonMatchingResp at hr
            match r with
            | .ok (.jsonBody j) =>
                exact ⟨j, rfl, Option.isNone_iff_eq_none.mp (by simpa using hr)⟩
            | .ok (.textBody s) => simp at hr
            | .error e => simp at hr
          subst hj
          have htail : pollLoop base step vars cfg clock (k + 1) rest =
              ⟨.bailed ("Polling timeout after " ++ toString cfg.timeout_seconds
                  ++ " seconds"),
               List.replicate n (build_raw_spec_from_step base step vars)⟩ := by
            apply ih (k + 1) rest
            · intro r hrmem
              exact hnm r (by simp [hrmem])
            · simpa using hlen
            · intro m hm
              have := hwithin (m + 1) (by omega)
              rwa [show k + (m + 1) = k + 1 + m by omega] at this
            · rwa [show k + 1 + n = k + (n + 1) by omega]
          rw [pollLoop.eq_def, if_neg (by omega)]
          show (match checkCompletionConditions cfg.completion_conditions j with
            | some .success =>
                PollRun.mk (.succeeded (.jsonBody j))
                  [build_raw_spec_from_step base step vars]
            | some (.failure m) =>
                PollRun.mk (.failed m) [build_raw_spec_from_step base step vars]
            | some (.configError m) =>
                PollRun.mk (.bailed m) [build_raw_spec_from_step base step vars]
            | none =>
              let tailRun := pollLoop base step vars cfg clock (k + 1) rest
              PollRun.mk tailRun.res
                (build_raw_spec_from_step base step vars :: tailRun.issued)) = _
          rw [checkConds_of_statusStr_none cfg.completion_conditions j hns]
          rw [htail]
          rfl

/-- Witness for C10 at a concrete configuration: two polls whose status
is the number 5, a one-second interval clock and a one-second timeout. -/
theorem poll_requires_string_status_witness :
    pollLoop none ⟨"poll_job", "GET", "/jobs/1", none, [], [], none⟩ []
        ⟨1, 1, [⟨"done", "success", none, none⟩]⟩ (fun k => k) 0
        [.ok (.jsonBody (.obj [("status", .num 5)])),
         .ok (.jsonBody (.obj [("status", .num 5)]))] =
      ⟨.bailed "Polling timeout after 1 seconds",
       List.replicate 2 (build_raw_spec_from_step none
         ⟨"poll_job", "GET", "/jobs/1", none, [], [], none⟩ [])⟩ :=
  poll_requires_string_status.2 none
    ⟨"poll_job", "GET", "/jobs/1", none, [], [], none⟩ []
    ⟨1, 1, [⟨"done", "success", none, none⟩]⟩ (fun k => k) 2 0
    [.ok (.jsonBody (.obj [("status", .num 5)])),
     .ok (.jsonBody (.obj [("status", .num 5)]))]
    (by decide) (by decide) (fun m hm => by interval_cases m <;> decide)
    (by decide)

/-! ## Claim C1: completion-condition evaluation -/

/-- Terminal loop outcome of a matched decision over the current body. -/
def decisionRes (body : RespBody) : PollDecision → LoopRes
  | .success => .succeeded body
  | .failure m => .failed m
  | .configError m => .bailed m

/-- The first poll iteration within the timeout whose response parses and
matches some condition terminates the loop with that condition's decision
after exactly this one poll request. -/
theorem pollLoop_first_decision (base : Option String) (step : ScenarioStep)
    (vars : Vars) (cfg : PollingConfig) (clock : Nat → Nat) (k : Nat)
    (body : RespBody) (j : Json) (d : PollDecision)
    (rest : List (Except String RespBody))
    (hclk : clock k ≤ cfg.timeout_seconds) (hp : parseJson body = some j)
    (hc : checkCompletionConditions cfg.completion_conditions j = some d) :
    pollLoop base step vars cfg clock k (.ok body :: rest) =
      ⟨decisionRes body d, [build_raw_spec_from_step base step vars]⟩ := by
  rw [pollLoop.eq_def, if_neg (by omega)]
  show (match parseJson body with
    | none => PollRun.mk (.bailed "Failed to parse polling response as JSON")
        [build_raw_spec_from_step base step vars]
    | some j =>
      match checkCompletionConditions cfg.completion_conditions j with
      | some .success => PollRun.mk (.succeeded body)
          [build_raw_spec_from_step base step vars]
      | some (.failure m) => PollRun.mk (.failed m)
          [build_raw_spec_from_step base step vars]
      | some (.configError m) => PollRun.mk (.bailed m)
          [build_raw_spec_from_step base step vars]
      | none =>
        let tailRun := pollLoop base step vars cfg clock (k + 1) rest
        PollRun.mk tailRun.res
          (build_raw_spec_from_step base step vars :: tailRun.issued)) = _
  rw [hp]
  show (match checkCompletionConditions cfg.completion_conditions j with
    | some .success => PollRun.mk (.succeeded body)
        [build_raw_spec_from_step base step vars]
    | some (.failure m) => PollRun.mk (.failed m)
        [build_raw_spec_from_step base step vars]
    | some (.configError m) => PollRun.mk (.bailed m)
        [build_raw_spec_from_step base step vars]
    | none =>
      let tailRun := pollLoop base step vars cfg clock (k + 1) rest
      PollRun.mk tailRun.res
        (build_raw_spec_from_step base step vars :: tailRun.issued)) = _
  cases d <;> (rw [hc]; rfl)

/-- Condition of the C1 counterexample: an error action whose
`error_field` is set but selects nothing, while `error_message` is also
set. -/
def c1Cond : CompletionCondition :=
  ⟨"failed", "error", some "$.missing", some "custom message"⟩

/-- Polling policy of the C1 counterexample. -/
def c1Cfg : PollingConfig := ⟨1, 30, [c1Cond]⟩

/-- Poll step of the C1 counterexample. -/
def c1Step : ScenarioStep := ⟨"poll_job", "GET", "/jobs/1", none, [], [], some c1Cfg⟩

/-- Counterexample to C1: the poll response matches the error condition,
`error_field` is set but resolves to nothing, and `error_message` is set
to a custom text — yet the emitted message is the generic Unknown error,
not the `error_message` the claim's fallback chain promises. -/
theorem error_field_fallback_cex :
    (pollLoop none c1Step [] c1Cfg (fun _ => 0) 0
        [.ok (.jsonBody (.obj [("status", .str "failed")]))]).res =
      .failed "Unknown error" ∧
    ("Unknown error" : String) ≠ "custom message" := ⟨rfl, by decide⟩

/-- C1 amended: conditions are evaluated in declared order against the
top-level string `status`; the first match decides: a success action
terminates with exit 0 after exactly the current poll (a first-poll match
yields one poll request and no second), an error action terminates with
exit 1 and a message taken from `error_field`'s extraction when
`error_field` is set — falling back to the generic Unknown error when the
extraction resolves nothing, without consulting `error_message` — else
from `error_message` when set, else a generic text; any other action
string aborts with a configuration error. -/
theorem completion_condition_semantics :
    (∀ j c conds d, evalCondition j c = some d →
       checkCompletionConditions (c :: conds) j = some d) ∧
    (∀ j c conds, evalCondition j c = none →
       checkCompletionConditions (c :: conds) j =
         checkCompletionConditions conds j) ∧
    (∀ j c, evalCondition j c =
       if statusStr j = some c.status then some (conditionDecision j c) else none) ∧
    (∀ j c, c.action = "success" → conditionDecision j c = .success) ∧
    (∀ j c, c.action = "error" → conditionDecision j c =
       .failure (match c.error_field with
         | some ef => (extract_jsonpath_value j ef).getD "Unknown error"
         | none => c.error_message.getD "Operation failed")) ∧
    (∀ j c, c.action ≠ "success" → c.action ≠ "error" →
       conditionDecision j c =
         .configError ("Unknown completion action: " ++ c.action)) ∧
    (∀ base step vars cfg clock body j rest,
       clock 0 ≤ cfg.timeout_seconds → parseJson body = some j →
       checkCompletionConditions cfg.completion_conditions j = some .success →
       pollLoop base step vars cfg clock 0 (.ok body :: rest) =
         ⟨.succeeded body, [build_raw_spec_from_step base step vars]⟩) ∧
    (∀ base step vars cfg clock body j m rest,
       clock 0 ≤ cfg.timeout_seconds → parseJson body = some j →
       checkCompletionConditions cfg.completion_conditions j = some (.failure m) →
       pollLoop base step vars cfg clock 0 (.ok body :: rest) =
         ⟨.failed m, [build_raw_spec_from_step base step vars]⟩) ∧
    (∀ base step vars cfg clock body j m rest,
       clock 0 ≤ cfg.timeout_seconds → parseJson body = some j →
       checkCompletionConditions cfg.completion_conditions j =
         some (.configError m) →
       pollLoop base step vars cfg clock 0 (.ok body :: rest) =
         ⟨.bailed m, [build_raw_spec_from_step base step vars]⟩) := by
  refine ⟨?_, ?_, ?_, ?_, ?_, ?_, ?_, ?_, ?_⟩
  · intro j c conds d h
    show (match evalCondition j c with
      | some d => some d
      | none => checkCompletionConditions conds j) = some d
    rw [h]
  · intro j c conds h
    show (match evalCondition j c with
      | some d => some d
      | none => checkCompletionConditions conds j) =
        checkCompletionConditions conds j
    rw [h]
  · intro j c
    unfold evalCondition statusStr
    cases hg : j.get "status" with
    | none => simp
    | some sv =>
        show (match sv.asStr with
          | some s2 => if s2 = c.status then some (conditionDecision j c) else none
          | none => none) =
          if sv.asStr = some c.status then some (conditionDecision j c) else none
        cases ha : sv.asStr with
        | none => simp
        | some s =>
            show (if s = c.status then some (conditionDecision j c) else none) =
              if some s = some c.status then some (conditionDecision j c) else none
            by_cases hs : s = c.status
            · rw [if_pos hs, if_pos (by rw [hs])]
            · rw [if_neg hs, if_neg (fun hcon => hs (Option.some.inj hcon))]
  · intro j c h
    simp [conditionDecision, h]
  · intro j c h
    unfold conditionDecision
    rw [h]
    rw [if_neg (by decide), if_pos rfl]
    cases c.error_field with
    | some ef => rfl
    | none => cases c.error_message <;> rfl
  · intro j c h1 h2
    simp [conditionDecision, h1, h2]
  · intro base step vars cfg clock body j rest hclk hp hc
    exact pollLoop_first_decision base step vars cfg clock 0 body j .success
      rest hclk hp hc
  · intro base step vars cfg clock body j m rest hclk hp hc
    exact pollLoop_first_decision base step vars cfg clock 0 body j (.failure m)
      rest hclk hp hc
  · intro base step vars cfg clock body j m rest hclk hp hc
    exact pollLoop_first_decision base step vars cfg clock 0 body j
      (.configError m) rest hclk hp hc

/-- Witness for C1 (amended): a first poll already matching the success
condition ends the scenario with exit 0 after exactly one poll request,
with a second response available but never requested. -/
theorem completion_condition_semantics_witness :
    pollLoop none c1Step [] ⟨1, 30, [⟨"done", "success", none, none⟩]⟩
        (fun _ => 0) 0
        [.ok (.jsonBody (.obj [("status", .str "done")])),
         .ok (.jsonBody (.obj [("status", .str "done")]))] =
      ⟨.succeeded (.jsonBody (.obj [("status", .str "done")])),
       [build_raw_spec_from_step none c1Step []]⟩ :=
  completion_condition_semantics.2.2.2.2.2.2.1 none c1Step []
    ⟨1, 30, [⟨"done", "success", none, none⟩]⟩ (fun _ => 0)
    (.jsonBody (.obj [("status", .str "done")]))
    (.obj [("status", .str "done")])
    [.ok (.jsonBody (.obj [("status", .str "done")]))]
    (by decide) rfl rfl

/-! ## Claim C8: step-1 extraction failures -/

/-- Schedule step with no extraction rules (C8 counterexample). -/
def c8ScheduleStep : ScenarioStep := ⟨"schedule_job", "POST", "/jobs", none, [], [], none⟩

/-- Poll step of the C8 counterexample. -/
def c8PollStep : ScenarioStep :=
  ⟨"poll_job", "GET", "/jobs/1", none, [], [],
   some ⟨1, 30, [⟨"done", "success", none, none⟩]⟩⟩

/-- Scenario of the C8 counterexample. -/
def c8Spec : ScenarioSpec :=
  ⟨none, ⟨"job_with_polling", [c8ScheduleStep, c8PollStep]⟩, []⟩

/-- Environment of the C8 counterexample: the schedule response body is
plain text that no JSON parser accepts. -/
def c8Env : ScenarioEnv :=
  ⟨.ok (.textBody "PLAIN TEXT, NOT JSON"),
   [.ok (.jsonBody (.obj [("status", .str "done")]))], fun _ => 0⟩

/-- Counterexample to C8: the schedule response body is not JSON, yet the
scenario does not abort — with no extraction rules declared the body is
never parsed, a poll request is issued and the scenario succeeds. -/
theorem schedule_nonjson_no_abort_cex :
    (execute_job_with_polling_scenario c8Spec c8Env).res =
        .succeeded (.jsonBody (.obj [("status", .str "done")])) ∧
      (execute_job_with_polling_scenario c8Spec c8Env).issued.length = 1 :=
  ⟨rfl, rfl⟩

/-- A rule whose path selects nothing fails the whole extraction pass. -/
theorem extractLoop_missing_path (j : Json) (varName path : String) :
    ∀ (rules : List (String × String)) (vars : Vars),
      (varName, path) ∈ rules → extract_jsonpath_value j path = none →
      ∃ e, extractLoop j rules vars = .error e := by
  intro rules
  induction rules with
  | nil => intro vars hmem; simp at hmem
  | cons rule rest ih =>
      intro vars hmem hnone
      obtain ⟨v, p⟩ := rule
      rcases List.mem_cons.mp hmem with hhead | htail
      · injection hhead with hv hp
        subst hv; subst hp
        refine ⟨"Failed to extract variable " ++ varName ++ " using JSONPath "
          ++ path, ?_⟩
        unfold extractLoop
        rw [hnone]
      · cases hx : extract_jsonpath_value j p with
        | some value =>
            obtain ⟨e, he⟩ := ih (varsInsert vars v value) htail hnone
            refine ⟨e, ?_⟩
            unfold extractLoop
            rw [hx]
            exact he
        | none =>
            refine ⟨"Failed to extract variable " ++ v ++ " using JSONPath " ++ p, ?_⟩
            unfold extractLoop
            rw [hx]

/-- C8 amended: any failing extraction step aborts the scenario before a
single poll request is issued; a rule whose JSONPath selects nothing in
the (parsed) schedule response always fails the extraction; and a
non-JSON schedule body is a fatal extraction error exactly when at least
one extraction rule is declared — with no rules the body is never parsed
and polling proceeds. -/
theorem extraction_failure_aborts_before_polling :
    (∀ (spec : ScenarioSpec) (env : ScenarioEnv) s0 s1 body e,
       spec.scenario.steps = [s0, s1] → s0.name = "schedule_job" →
       env.schedule = .ok body →
       extract_response_variables body s0.extract_response spec.vars = .error e →
       execute_job_with_polling_scenario spec env = ⟨.bailed e, []⟩) ∧
    (∀ body j rules vars varName path, parseJson body = some j →
       (varName, path) ∈ rules → extract_jsonpath_value j path = none →
       ∃ e, extract_response_variables body rules vars = .error e) ∧
    (∀ body rules vars, rules ≠ [] → parseJson body = none →
       extract_response_variables body rules vars =
         .error "Failed to parse response as JSON for variable extraction") := by
  refine ⟨?_, ?_, ?_⟩
  · intro spec env s0 s1 body e hsteps hname hsched hfail
    unfold execute_job_with_polling_scenario
    rw [hsteps]
    simp [hname, hsched, hfail]
  · intro body j rules vars varName path hp hmem hnone
    have hne : rules.isEmpty = false := by
      cases rules
      · simp at hmem
      · rfl
    obtain ⟨e, he⟩ := extractLoop_missing_path j varName path rules vars hmem hnone
    refine ⟨e, ?_⟩
    unfold extract_response_variables
    rw [hne]
    show (match parseJson body with
      | none => (Except.error
          "Failed to parse response as JSON for variable extraction" :
            Except String Vars)
      | some j2 => extractLoop j2 rules vars) = Except.error e
    rw [hp]
    exact he
  · intro body rules vars hne hp
    have hne2 : rules.isEmpty = false := by
      cases rules
      · exact absurd rfl hne
      · rfl
    unfold extract_response_variables
    rw [hne2]
    show (match parseJson body with
      | none => (Except.error
          "Failed to parse response as JSON for variable extraction" :
            Except String Vars)
      | some j2 => extractLoop j2 rules vars) =
      .error "Failed to parse response as JSON for variable extraction"
    rw [hp]

/-- Witness for C8 (amended): a scenario whose single extraction rule
misses aborts with the extraction error and issues zero poll requests. -/
theorem extraction_failure_aborts_before_polling_witness :
    execute_job_with_polling_scenario
        ⟨none, ⟨"job_with_polling",
          [⟨"schedule_job", "POST", "/jobs", none, [], [("job_id", "$.missing")], none⟩,
           c8PollStep]⟩, []⟩
        ⟨.ok (.jsonBody (.obj [("id", .str "42")])),
         [.ok (.jsonBody (.obj [("status", .str "done")]))], fun _ => 0⟩ =
      ⟨.bailed "Failed to extract variable job_id using JSONPath $.missing", []⟩ :=
  extraction_failure_aborts_before_polling.1
    ⟨none, ⟨"job_with_polling",
      [⟨"schedule_job", "POST", "/jobs", none, [], [("job_id", "$.missing")], none⟩,
       c8PollStep]⟩, []⟩
    ⟨.ok (.jsonBody (.obj [("id", .str "42")])),
     [.ok (.jsonBody (.obj [("status", .str "done")]))], fun _ => 0⟩
    ⟨"schedule_job", "POST", "/jobs", none, [], [("job_id", "$.missing")], none⟩
    c8PollStep (.jsonBody (.obj [("id", .str "42")]))
    "Failed to extract variable job_id using JSONPath $.missing"
    rfl rfl rfl rfl

/-! ## Claim C6: count mode executes the target exactly

The pool invariant: the attempt indices already aggregated plus those
currently claimed by some worker are distinct, lie in [1, min(counter,
target)], and exhaust that interval; and once any worker has terminated
the counter has reached the target. -/

/-- Claimed indices distribute over list append. -/
theorem claimedIdxs_append (l₁ l₂ : List WPhase) :
    claimedIdxs (l₁ ++ l₂) = claimedIdxs l₁ ++ claimedIdxs l₂ :=
  List.filterMap_append l₁ l₂ _

/-- An idle worker claims nothing. -/
theorem claimedIdxs_cons_idle (l : List WPhase) :
    claimedIdxs (.idle :: l) = claimedIdxs l := rfl

/-- An armed worker claims nothing yet. -/
theorem claimedIdxs_cons_armed (l : List WPhase) :
    claimedIdxs (.armed :: l) = claimedIdxs l := rfl

/-- A terminated worker claims nothing. -/
theorem claimedIdxs_cons_done (l : List WPhase) :
    claimedIdxs (.done :: l) = claimedIdxs l := rfl

/-- A claiming worker contributes exactly its claimed index. -/
theorem claimedIdxs_cons_claimed (k : Nat) (l : List WPhase) :
    claimedIdxs (.claimed k :: l) = k :: claimedIdxs l := rfl

/-- The initial all-idle pool claims nothing. -/
theorem claimedIdxs_replicate_idle (conc : Nat) :
    claimedIdxs (List.replicate conc .idle) = [] := by
  induction conc with
  | zero => rfl
  | succ n ih => rw [List.replicate_succ, claimedIdxs_cons_idle, ih]

/-- All-done worker lists claim nothing. -/
theorem claimedIdxs_of_allDone :
    ∀ (ws : List WPhase), (∀ w ∈ ws, w = WPhase.done) → claimedIdxs ws = []
  | [], _ => rfl
  | w :: ws, h => by
      have hw : w = WPhase.done := h w (by simp)
      subst hw
      rw [claimedIdxs_cons_done]
      exact claimedIdxs_of_allDone ws (fun w hw => h w (by simp [hw]))

/-- Pool invariant of the count-mode worker system. -/
structure PoolInv (target : Nat) (s : LoopState) : Prop where
  nodup : (s.executed ++ claimedIdxs s.workers).Nodup
  bounds : ∀ k ∈ s.executed ++ claimedIdxs s.workers,
    1 ≤ k ∧ k ≤ s.counter ∧ k ≤ target
  card : (s.executed ++ claimedIdxs s.workers).length = min s.counter target
  doneCounter : WPhase.done ∈ s.workers → target ≤ s.counter

/-- The invariant holds initially. -/
theorem poolInv_init (target conc : Nat) : PoolInv target (initState conc) := by
  constructor
  · simp [initState, claimedIdxs_replicate_idle]
  · simp [initState, claimedIdxs_replicate_idle]
  · simp [initState, claimedIdxs_replicate_idle]
  · intro h
    rw [initState] at h
    simp [List.mem_replicate] at h

/-- Every worker step preserves the invariant. -/
theorem poolInv_step {target : Nat} {s s' : LoopState}
    (hstep : WorkerStep target s s') (hinv : PoolInv target s) :
    PoolInv target s' := by
  obtain ⟨hnodup, hbounds, hcard, hdone⟩ := hinv
  cases hstep with
  | readStop c l₁ l₂ ex h =>
      simp only [claimedIdxs_append, claimedIdxs_cons_idle] at hnodup hbounds hcard
      refine ⟨?_, ?_, ?_, ?_⟩ <;>
        simp only [claimedIdxs_append, claimedIdxs_cons_done]
      · exact hnodup
      · exact hbounds
      · exact hcard
      · intro _
        exact h
  | readGo c l₁ l₂ ex h =>
      simp only [claimedIdxs_append, claimedIdxs_cons_idle] at hnodup hbounds hcard
      refine ⟨?_, ?_, ?_, ?_⟩ <;>
        simp only [claimedIdxs_append, claimedIdxs_cons_armed]
      · exact hnodup
      · exact hbounds
      · exact hcard
      · intro hmem
        apply hdone
        simp only [List.mem_append, List.mem_cons] at hmem ⊢
        rcases hmem with h1 | h2 | h3
        · exact Or.inl h1
        · cases h2
        · exact Or.inr (Or.inr h3)
  | claimOver c l₁ l₂ ex h =>
      simp only [claimedIdxs_append, claimedIdxs_cons_armed] at hnodup hbounds hcard
      refine ⟨?_, ?_, ?_, ?_⟩ <;>
        simp only [claimedIdxs_append, claimedIdxs_cons_done]
      · exact hnodup
      · intro k hk
        have := hbounds k hk
        exact ⟨this.1, by omega, this.2.2⟩
      · rw [hcard]
        omega
      · intro _
        omega
  | claimGo c l₁ l₂ ex h =>
      simp only [claimedIdxs_append, claimedIdxs_cons_armed] at hnodup hbounds hcard
      have hperm : List.Perm
          (ex ++ (claimedIdxs l₁ ++ (c + 1) :: claimedIdxs l₂))
          ((c + 1) :: (ex ++ (claimedIdxs l₁ ++ claimedIdxs l₂))) :=
        (List.Perm.append_left ex List.perm_middle).trans List.perm_middle
      have hnotmem : (c + 1) ∉ ex ++ (claimedIdxs l₁ ++ claimedIdxs l₂) := by
        intro hmem
        have := hbounds (c + 1) hmem
        omega
      refine ⟨?_, ?_, ?_, ?_⟩ <;>
        simp only [claimedIdxs_append, claimedIdxs_cons_claimed]
      · exact (hperm.symm).nodup (List.nodup_cons.mpr ⟨hnotmem, hnodup⟩)
      · intro k hk
        rcases List.mem_cons.mp (hperm.mem_iff.mp hk) with hk1 | hk2
        · subst hk1
          exact ⟨by omega, by omega, h⟩
        · have := hbounds k hk2
          exact ⟨this.1, by omega, this.2.2⟩
      · rw [hperm.length_eq, List.length_cons, hcard]
        show min c target + 1 = min (c + 1) target
        omega
      · intro hmem
        have hold : WPhase.done ∈ l₁ ++ WPhase.armed :: l₂ := by
          simp only [List.mem_append, List.mem_cons] at hmem ⊢
          rcases hmem with h1 | h2 | h3
          · exact Or.inl h1
          · cases h2
          · exact Or.inr (Or.inr h3)
        have h2 : target ≤ c := hdone hold
        exact Nat.le_succ_of_le h2
  | execSend c l₁ l₂ ex idx =>
      simp only [claimedIdxs_append, claimedIdxs_cons_claimed] at hnodup hbounds hcard
      have hperm : List.Perm
          (ex ++ (claimedIdxs l₁ ++ idx :: claimedIdxs l₂))
          (ex ++ idx :: (claimedIdxs l₁ ++ claimedIdxs l₂)) :=
        List.Perm.append_left ex List.perm_middle
      refine ⟨?_, ?_, ?_, ?_⟩ <;>
        simp only [claimedIdxs_append, claimedIdxs_cons_idle, List.append_assoc,
          List.singleton_append]
      · exact hperm.nodup hnodup
      · intro k hk
        exact hbounds k (hperm.mem_iff.mpr hk)
      · rw [← hperm.length_eq]
        exact hcard
      · intro hmem
        apply hdone
        simp only [List.mem_append, List.mem_cons] at hmem ⊢
        rcases hmem with h1 | h2 | h3
        · exact Or.inl h1
        · cases h2
        · exact Or.inr (Or.inr h3)

/-- The invariant holds in every reachable state. -/
theorem poolInv_reach {target conc : Nat} {s : LoopState}
    (h : WorkerSteps target (initState conc) s) : PoolInv target s := by
  induction h with
  | refl => exact poolInv_init target conc
  | tail hsteps hstep ih => exact poolInv_step hstep ih

/-- A worker step never changes the number of workers. -/
theorem step_workers_length {target : Nat} {s s' : LoopState}
    (h : WorkerStep target s s') : s'.workers.length = s.workers.length := by
  cases h <;> simp

/-- Every reachable state still has all spawned workers. -/
theorem steps_workers_length {target conc : Nat} {s : LoopState}
    (h : WorkerSteps target (initState conc) s) : s.workers.length = conc := by
  induction h with
  | refl => simp [initState]
  | tail hsteps hstep ih => rw [step_workers_length hstep, ih]

/-- C6: in count mode with target above one and at least one worker, any
terminated run (all workers done) has aggregated exactly the attempt
indices 1..target, each exactly once — never more, never fewer; moreover
in every reachable state all handed-out indices are at most the shared
counter, so the index `counter + 1` handed out by the next atomic
fetch-add is strictly greater than every index handed out before, and by
the per-run distinctness they are unique. -/
theorem count_mode_exact_results (target conc : Nat) (s : LoopState)
    (htarget : 1 < target) (hconc : 0 < conc)
    (hreach : WorkerSteps target (initState conc) s) (hdone : allDone s) :
    s.executed.length = target ∧ s.executed.Nodup ∧
      (∀ k, k ∈ s.executed ↔ 1 ≤ k ∧ k ≤ target) ∧
      (∀ s2, WorkerSteps target (initState conc) s2 →
         ∀ k ∈ s2.executed ++ claimedIdxs s2.workers, k ≤ s2.counter) := by
  have hinv := poolInv_reach hreach
  have hcl : claimedIdxs s.workers = [] := claimedIdxs_of_allDone s.workers hdone
  have hlen : s.workers.length = conc := steps_workers_length hreach
  have hdonemem : WPhase.done ∈ s.workers := by
    cases hw : s.workers with
    | nil =>
        rw [hw] at hlen
        simp at hlen
        omega
    | cons w ws =>
        have hwd := hdone w (by rw [hw]; exact List.mem_cons_self w ws)
        rw [← hwd]
        exact List.mem_cons_self w ws
  have hcnt : target ≤ s.counter := hinv.doneCounter hdonemem
  have hE : s.executed ++ claimedIdxs s.workers = s.executed := by
    rw [hcl, List.append_nil]
  have hlen2 : s.executed.length = target := by
    have hc := hinv.card
    rw [hE] at hc
    rw [hc]
    omega
  have hnodup : s.executed.Nodup := by
    have hn := hinv.nodup
    rwa [hE] at hn
  have hbounds : ∀ k ∈ s.executed, 1 ≤ k ∧ k ≤ target := by
    intro k hk
    have hb := hinv.bounds k (by rw [hE]; exact hk)
    exact ⟨hb.1, hb.2.2⟩
  refine ⟨hlen2, hnodup, ?_, ?_⟩
  · have hsub : s.executed.toFinset ⊆ Finset.Icc 1 target := by
      intro k hk
      rw [List.mem_toFinset] at hk
      rw [Finset.mem_Icc]
      exact hbounds k hk
    have hcard2 : (Finset.Icc 1 target).card ≤ s.executed.toFinset.card := by
      rw [List.toFinset_card_of_nodup hnodup, hlen2, Nat.card_Icc]
      omega
    have heq := Finset.eq_of_subset_of_card_le hsub hcard2
    intro k
    constructor
    · intro hk
      exact hbounds k hk
    · intro hk
      have hk2 : k ∈ Finset.Icc 1 target := Finset.mem_Icc.mpr hk
      rw [← heq, List.mem_toFinset] at hk2
      exact hk2
  · intro s2 h2 k hk
    exact ((poolInv_reach h2).bounds k hk).2.1

/-- Witness for C6: an explicit terminating schedule of one worker with
target 2 — read, claim 1, execute, read, claim 2, execute, read, stop —
aggregates exactly the indices 1 and 2. -/
theorem count_mode_exact_results_witness :
    ([1, 2] : List Nat).length = 2 ∧ ([1, 2] : List Nat).Nodup ∧
      (∀ k, k ∈ ([1, 2] : List Nat) ↔ 1 ≤ k ∧ k ≤ 2) := by
  have t1 : WorkerStep 2 ⟨0, [.idle], []⟩ ⟨0, [.armed], []⟩ :=
    WorkerStep.readGo 0 [] [] [] (by decide)
  have t2 : WorkerStep 2 ⟨0, [.armed], []⟩ ⟨1, [.claimed 1], []⟩ :=
    WorkerStep.claimGo 0 [] [] [] (by decide)
  have t3 : WorkerStep 2 ⟨1, [.claimed 1], []⟩ ⟨1, [.idle], [1]⟩ :=
    WorkerStep.execSend 1 [] [] [] 1
  have t4 : WorkerStep 2 ⟨1, [.idle], [1]⟩ ⟨1, [.armed], [1]⟩ :=
    WorkerStep.readGo 1 [] [] [1] (by decide)
  have t5 : WorkerStep 2 ⟨1, [.armed], [1]⟩ ⟨2, [.claimed 2], [1]⟩ :=
    WorkerStep.claimGo 1 [] [] [1] (by decide)
  have t6 : WorkerStep 2 ⟨2, [.claimed 2], [1]⟩ ⟨2, [.idle], [1, 2]⟩ :=
    WorkerStep.execSend 2 [] [] [1] 2
  have t7 : WorkerStep 2 ⟨2, [.idle], [1, 2]⟩ ⟨2, [.done], [1, 2]⟩ :=
    WorkerStep.readStop 2 [] [] [1, 2] (by decide)
  have htrace : WorkerSteps 2 (initState 1) ⟨2, [.done], [1, 2]⟩ :=
    Relation.ReflTransGen.head t1 (Relation.ReflTransGen.head t2
      (Relation.ReflTransGen.head t3 (Relation.ReflTransGen.head t4
        (Relation.ReflTransGen.head t5 (Relation.ReflTransGen.head t6
          (Relation.ReflTransGen.head t7 Relation.ReflTransGen.refl))))))
  have h := count_mode_exact_results 2 1 ⟨2, [.done], [1, 2]⟩ (by decide)
    (by decide) htrace (by intro w hw; simpa using hw)
  exact ⟨h.1, h.2.1, h.2.2.1⟩

end Rclib
